import Mathlib

/-!
# TaskWrapper: verification of the task store, transition engine,
# review subsystem, worktree pool, sanitizer and terminal buffer

Shallow embedding of the Go sources of the TaskWrapper repository:
* `Task`, `TaskStatus.Valid`, `TaskPriority.Valid`, `ParseTaskStatus`
  (README embedded `types.go`),
* `TaskService` (`src/unnamed/part_004`): `LoadTasks`, `SaveTasks`,
  `UpdateTask`, `MoveTask`, `validateTasks`,
* `App.MoveTask`, `App.ApproveTask`, `App.RejectTask`,
  `TerminalBuffer.AddLine` (`src/taskwrapper/app.go`),
* `AgentService.ApproveTask` / `RejectTask` (README embedded
  `agent_service.go`),
* `PathValidator.SanitizeFilename` (`src/taskwrapper/security.go`),
* the worktree allocation of
  `src/plan/helpers_and_tools/agent_spawn.sh`,
* the terminal session flow of `TerminalService`
  (`src/unnamed/part_009`).

Go slices and byte strings are modelled as Lean lists; fallible
operations return `Except`; external git / process outcomes are
explicit boolean parameters.
-/

set_option autoImplicit false

namespace TaskWrapper

/-! ## Task data model (types.go) -/

/-- `TaskStatus.Valid` from the embedded `types.go`: the five statuses. -/
def statusValid (s : String) : Bool :=
  s = "backlog" || s = "todo" || s = "doing" || s = "pending_review" || s = "done"

/-- `TaskPriority.Valid` from the embedded `types.go`. -/
def priorityValid (p : String) : Bool :=
  p = "high" || p = "medium" || p = "low"

/-- Typed errors of the task / agent layer (spec section 7 taxonomy;
each constructor corresponds to one `fmt.Errorf` site in the Go code). -/
inductive TaskError where
  | emptyTitle (id : Int)
  | invalidStatus (id : Int) (s : String)
  | invalidPriority (id : Int) (p : String)
  | invalidStatusArg (s : String)
  | notFound (id : Int)
  | notPendingReview (id : Int)
  | branchNotFound (branch : String)
  | mergeFailed (branch : String)
  | parseFailed
  deriving Repr, DecidableEq

/-- `ParseTaskStatus` from `types.go`: identity on valid statuses,
error otherwise. -/
def parseTaskStatus (s : String) : Except TaskError String :=
  if statusValid s then .ok s else .error (.invalidStatusArg s)

/-- The `Task` struct of `app.go` / `task_service.go`.  `deps` is a Go
slice (`none` models a nil slice, `some l` a non-nil slice), `parent`
a nullable pointer. -/
structure Task where
  id : Int
  title : String
  status : String
  priority : String
  deps : Option (List Int)
  parent : Option Int
  deriving Repr, DecidableEq

/-! ## JSON (encoding/json on the Task struct) -/

/-- JSON values as marshalled by `encoding/json` for the `Task` struct:
only the forms that struct produces/consumes are needed. -/
inductive Json where
  | null
  | num (n : Int)
  | str (s : String)
  | arr (xs : List Json)
  | obj (fields : List (String × Json))

/-- Marshal a dependency slice: Go marshals a nil `[]int` as `null` and
a non-nil slice as a JSON array. -/
def marshalDeps : Option (List Int) → Json
  | none => .null
  | some l => .arr (l.map .num)

/-- Marshal an optional parent pointer. -/
def marshalParent : Option Int → Json
  | none => .null
  | some n => .num n

/-- `json.MarshalIndent` on one `Task` value (field names from the
struct tags of `app.go`). -/
def marshalTask (t : Task) : Json :=
  .obj [("id", .num t.id), ("title", .str t.title), ("status", .str t.status),
        ("priority", .str t.priority), ("deps", marshalDeps t.deps),
        ("parent", marshalParent t.parent)]

/-- Marshal the whole task list (a JSON array). -/
def marshalTasks (ts : List Task) : Json :=
  .arr (ts.map marshalTask)

/-- Traverse a list with a fallible decoder (the element loop of
`json.Unmarshal` on an array). -/
def mapOption {α β : Type} (f : α → Option β) : List α → Option (List β)
  | [] => some []
  | x :: xs =>
    match f x with
    | none => none
    | some y => (mapOption f xs).map (y :: ·)

/-- Decode a `[]int` field. -/
def unmarshalDeps : Json → Option (Option (List Int))
  | .null => some none
  | .arr xs => (mapOption (fun j => match j with | Json.num n => some n | _ => none) xs).map some
  | _ => none

/-- Decode a `*int` field. -/
def unmarshalParent : Json → Option (Option Int)
  | .null => some none
  | .num n => some (some n)
  | _ => none

/-- Field lookup in a JSON object (encoding/json matches by tag name). -/
def jsonField (name : String) : List (String × Json) → Option Json
  | [] => none
  | (k, v) :: rest => if k = name then some v else jsonField name rest

/-- `json.Unmarshal` into one `Task`. -/
def unmarshalTask : Json → Option Task
  | .obj fields => do
    let .num id ← jsonField "id" fields | none
    let .str title ← jsonField "title" fields | none
    let .str status ← jsonField "status" fields | none
    let .str priority ← jsonField "priority" fields | none
    let depsJ ← jsonField "deps" fields
    let deps ← unmarshalDeps depsJ
    let parentJ ← jsonField "parent" fields
    let parent ← unmarshalParent parentJ
    some { id := id, title := title, status := status, priority := priority,
           deps := deps, parent := parent }
  | _ => none

/-- `json.Unmarshal` into a `[]Task`. -/
def unmarshalTasks : Json → Option (List Task)
  | .arr xs => mapOption unmarshalTask xs
  | _ => none

/-! ## TaskService (part_004) -/

/-- `TaskService.validateTasks`: first offending task decides the error;
checks (in code order) empty title, invalid status, invalid priority.
No other condition is checked. -/
def validateTasks : List Task → Except TaskError Unit
  | [] => .ok ()
  | t :: ts =>
    if t.title = "" then .error (.emptyTitle t.id)
    else if ¬ statusValid t.status then .error (.invalidStatus t.id t.status)
    else if ¬ priorityValid t.priority then .error (.invalidPriority t.id t.priority)
    else validateTasks ts

/-- The mutable state of a `TaskService`: the in-memory slice and the
persisted `plan/task.json` contents. -/
structure SvcState where
  mem : List Task
  file : Json

/-- `TaskService.saveTasks` (the private persist step):
`AtomicWriteJSON` of the in-memory list. -/
def persist (tasks : List Task) : Json := marshalTasks tasks

/-- `TaskService.SaveTasks`: validate, update memory, persist.  On a
validation error the method returns before mutating, so the state is
returned unchanged. -/
def svcSaveTasks (st : SvcState) (tasks : List Task) :
    SvcState × Except TaskError Unit :=
  match validateTasks tasks with
  | .error e => (st, .error e)
  | .ok _ => ({ mem := tasks, file := persist tasks }, .ok ())

/-- Index of the first element satisfying a predicate (a Go
`for i, x := range` loop with `break`). -/
def firstIdx {α : Type} (p : α → Bool) : List α → Option Nat
  | [] => none
  | x :: xs => if p x then some 0 else (firstIdx p xs).map (· + 1)

/-- Index of the first task with a given id (the Go `for` loops match on
`task.ID == taskID` and `break`). -/
def findTaskIdx (tasks : List Task) (taskID : Int) : Option Nat :=
  firstIdx (fun t => t.id == taskID) tasks

/-- First task with a given id. -/
def findTask (tasks : List Task) (taskID : Int) : Option Task :=
  tasks.find? (fun t => t.id == taskID)

/-- `TaskService.UpdateTask`: validate the single task, replace the
entry with the matching id, persist. -/
def svcUpdateTask (st : SvcState) (task : Task) :
    SvcState × Except TaskError Unit :=
  match validateTasks [task] with
  | .error e => (st, .error e)
  | .ok _ =>
    match findTaskIdx st.mem task.id with
    | none => (st, .error (.notFound task.id))
    | some i =>
      let mem := st.mem.set i task
      ({ mem := mem, file := persist mem }, .ok ())

/-- `TaskService.MoveTask`: parse/validate the status first, then find
the task by id, mutate only its status field, persist. -/
def svcMoveTask (st : SvcState) (taskID : Int) (newStatus : String) :
    SvcState × Except TaskError Unit :=
  match parseTaskStatus newStatus with
  | .error e => (st, .error e)
  | .ok status =>
    match findTaskIdx st.mem taskID with
    | none => (st, .error (.notFound taskID))
    | some i =>
      match st.mem.get? i with
      | none => (st, .error (.notFound taskID))
      | some t =>
        let mem := st.mem.set i { t with status := status }
        ({ mem := mem, file := persist mem }, .ok ())

/-- `TaskService.LoadTasks`: parse the persisted file back into memory. -/
def svcLoadTasks (st : SvcState) : SvcState × Except TaskError (List Task) :=
  match unmarshalTasks st.file with
  | none => (st, .error .parseFailed)
  | some tasks => ({ st with mem := tasks }, .ok tasks)

/-! ## Git state and AgentService (README embedded agent_service.go)

External `git` command outcomes (merge conflicts, failing deletes) are
explicit boolean parameters of the embedding. -/

/-- One merge commit as produced by
`git merge <branch> --no-ff -m <message>`. -/
structure MergeRec where
  branch : String
  message : String
  noFF : Bool
  deriving Repr, DecidableEq

/-- The branches and merge history of the mainline checkout. -/
structure GitState where
  branches : List String
  log : List MergeRec
  deriving Repr, DecidableEq

/-- `fmt.Sprintf("task_%d", taskID)`. -/
def branchName (taskID : Int) : String :=
  "task_" ++ toString taskID

/-- The commit message of `AgentService.mergeBranch`:
`fmt.Sprintf("Merge task #%d: %s", taskID, taskTitle)`. -/
def mergeMessage (taskID : Int) (title : String) : String :=
  "Merge task #" ++ toString taskID ++ ": " ++ title

/-- `AgentService.ApproveTask`: check the branch exists, merge with
`--no-ff` (may fail: `mergeOk`), then delete the branch; a delete
failure (`deleteOk = false`) is only logged and does not fail the call. -/
def agentApproveTask (git : GitState) (mergeOk deleteOk : Bool)
    (taskID : Int) (title : String) : GitState × Except TaskError Unit :=
  let b := branchName taskID
  if b ∈ git.branches then
    if mergeOk then
      let git1 : GitState :=
        { git with log := git.log ++ [{ branch := b, message := mergeMessage taskID title, noFF := true }] }
      let git2 : GitState :=
        if deleteOk then { git1 with branches := git1.branches.erase b } else git1
      (git2, .ok ())
    else (git, .error (.mergeFailed b))
  else (git, .error (.branchNotFound b))

/-- `AgentService.RejectTask`: force-delete the branch; a failure
(`deleteOk = false`) is only logged, the call always succeeds. -/
def agentRejectTask (git : GitState) (deleteOk : Bool) (taskID : Int) :
    GitState × Except TaskError Unit :=
  let b := branchName taskID
  let git1 : GitState :=
    if deleteOk then { git with branches := git.branches.erase b } else git
  (git1, .ok ())

/-! ## App facade (src/taskwrapper/app.go) -/

/-- Observable side effects of `App.MoveTask`, in emission order:
the persisted snapshot written by `TaskService.MoveTask`, then the
asynchronous agent spawn (with the spawn's own outcome, which the
goroutine only logs). -/
inductive AppEvent where
  | persisted (file : Json)
  | spawnAgent (taskID : Int) (ok : Bool)

/-- `App.MoveTask`: look up the old status, delegate to
`TaskService.MoveTask`, and only on a `todo → doing` transition spawn
the agent asynchronously (`go func` whose error is only logged).
Returns the final state, the result returned to the caller, and the
event trace. -/
def appMoveTask (st : SvcState) (taskID : Int) (newStatus : String)
    (spawnOk : Bool) : SvcState × Except TaskError Unit × List AppEvent :=
  match findTask st.mem taskID with
  | none => (st, .error (.notFound taskID), [])
  | some old =>
    match svcMoveTask st taskID newStatus with
    | (st1, .error e) => (st1, .error e, [])
    | (st1, .ok _) =>
      if old.status = "todo" ∧ newStatus = "doing" then
        (st1, .ok (), [.persisted st1.file, .spawnAgent taskID spawnOk])
      else
        (st1, .ok (), [.persisted st1.file])

/-- `App.ApproveTask`: find the task, require `pending_review`,
delegate to `AgentService.ApproveTask`, then persist status `done`
through `TaskService.UpdateTask`. -/
def appApproveTask (st : SvcState) (git : GitState) (mergeOk deleteOk : Bool)
    (taskID : Int) : SvcState × GitState × Except TaskError Unit :=
  match findTask st.mem taskID with
  | none => (st, git, .error (.notFound taskID))
  | some t =>
    if t.status ≠ "pending_review" then (st, git, .error (.notPendingReview taskID))
    else
      match agentApproveTask git mergeOk deleteOk taskID t.title with
      | (git1, .error e) => (st, git1, .error e)
      | (git1, .ok _) =>
        match svcUpdateTask st { t with status := "done" } with
        | (st1, .error e) => (st1, git1, .error e)
        | (st1, .ok _) => (st1, git1, .ok ())

/-- `strings.HasPrefix` on Go strings. -/
def goHasPrefix (s p : String) : Bool :=
  p.data.isPrefixOf s.data

/-- The title rewrite of `App.RejectTask`: prepend `NOT MERGED: ` only
when the title is non-empty and does not already carry the marker. -/
def rejectTitle (title : String) : String :=
  if title ≠ "" ∧ ¬ goHasPrefix title "NOT MERGED: " then "NOT MERGED: " ++ title
  else title

/-- `App.RejectTask`: find the task, require `pending_review`,
force-delete the branch (best effort), then persist the rewritten
title and status `done` through `TaskService.UpdateTask`. -/
def appRejectTask (st : SvcState) (git : GitState) (deleteOk : Bool)
    (taskID : Int) : SvcState × GitState × Except TaskError Unit :=
  match findTask st.mem taskID with
  | none => (st, git, .error (.notFound taskID))
  | some t =>
    if t.status ≠ "pending_review" then (st, git, .error (.notPendingReview taskID))
    else
      match agentRejectTask git deleteOk taskID with
      | (git1, .error e) => (st, git1, .error e)
      | (git1, .ok _) =>
        match svcUpdateTask st { t with title := rejectTitle t.title, status := "done" } with
        | (st1, .error e) => (st1, git1, .error e)
        | (st1, .ok _) => (st1, git1, .ok ())

/-! ## Worktree pool (plan/helpers_and_tools/agent_spawn.sh)

The pool is the vector of the `MAX_SUBAGENTS` workspace slots
`<parent>/<repo>-subagentN`, N = 1..MAX; slot `i` of the list is
workspace index `i+1`.  Liveness of a pid (`kill -0`) and the clock
are parameters. -/

/-- The `.agent_state` lease record; `pid` / `started` are `none` when
the corresponding `key=` line is absent or empty. -/
structure Lease where
  pid : Option Int
  started : Option Int
  deriving Repr, DecidableEq

/-- One workspace slot: no directory, directory without a lease record,
or directory with a lease record. -/
inductive Workspace where
  | absent
  | idle
  | leased (l : Lease)
  deriving Repr, DecidableEq

/-- `LOCK_TIMEOUT` default: 7200 seconds (2 hours). -/
def defaultLockTimeout : Int := 7200

/-- The staleness test of `is_worktree_available` / the cleanup loop:
missing pid or start time, dead process, or age beyond the timeout. -/
def staleLease (alive : Int → Bool) (now timeout : Int) (l : Lease) : Bool :=
  match l.pid, l.started with
  | none, _ => true
  | _, none => true
  | some p, some s => ¬ alive p || now - s > timeout

/-- The stale-lock cleanup pass (`rm -f $lockfile` turns the slot idle). -/
def purgeWorkspace (alive : Int → Bool) (now timeout : Int) :
    Workspace → Workspace
  | .leased l => if staleLease alive now timeout l then .idle else .leased l
  | w => w

/-- Errors of the allocation block (`exit 1` sites). -/
inductive PoolError where
  | poolFull
  | allocFailed
  deriving Repr, DecidableEq

/-- The allocation block of `agent_spawn.sh`: clean stale locks, reuse
the smallest-index existing idle workspace, else create the
smallest-index missing workspace when the count of existing workspaces
is below `MAX_SUBAGENTS`, else fail pool-full.  Returns the new pool
and the 1-based index of the allocated workspace. -/
def acquireWorkspace (alive : Int → Bool) (now timeout : Int)
    (newLease : Lease) (ws : List Workspace) :
    List Workspace × Except PoolError Nat :=
  let purged := ws.map (purgeWorkspace alive now timeout)
  match firstIdx (fun w => w == .idle) purged with
  | some i => (purged.set i (.leased newLease), .ok (i + 1))
  | none =>
    let existing := (purged.filter (fun w => w != .absent)).length
    if existing ≥ purged.length then (purged, .error .poolFull)
    else
      match firstIdx (fun w => w == .absent) purged with
      | some j => (purged.set j (.leased newLease), .ok (j + 1))
      | none => (purged, .error .allocFailed)

/-! ## SanitizeFilename (src/taskwrapper/security.go)

Go strings are byte sequences; the sanitizer is modelled on lists of
bytes.  All dangerous patterns but `".."` are single bytes, so
`strings.ReplaceAll` specialises to a byte map (`replace1`) and to a
two-byte scan (`replace2`). -/

/-- `strings.ReplaceAll` with a one-byte pattern: substitute every
occurrence. -/
def replace1 (d r : Nat) : List Nat → List Nat
  | [] => []
  | c :: cs => (if c = d then r else c) :: replace1 d r cs

/-- `strings.ReplaceAll` with a two-byte pattern, replacing leftmost
non-overlapping matches by the single byte `r`. -/
def replace2 (d1 d2 r : Nat) : List Nat → List Nat
  | [] => []
  | [c] => [c]
  | c1 :: c2 :: cs =>
    if c1 = d1 ∧ c2 = d2 then r :: replace2 d1 d2 r cs
    else c1 :: replace2 d1 d2 r (c2 :: cs)

/-- The dangerous single-byte patterns of `SanitizeFilename`, in code
order: `/ \ ~ $ ` | & ; ( ) [ ] { } < > ! ? *` then quote, double
quote, LF, CR, TAB. -/
def dangerousSingles : List Nat :=
  [47, 92, 126, 36, 96, 124, 38, 59, 40, 41, 91, 93, 123, 125,
   60, 62, 33, 63, 42, 39, 34, 10, 13, 9]

/-- The replacement byte: an underscore. -/
def underscore : Nat := 95

/-- The bytes of the fallback name `"unnamed"`. -/
def unnamedBytes : List Nat := [117, 110, 110, 97, 109, 101, 100]

/-- The tail of `SanitizeFilename`: truncate to 255 bytes and fall
back to `"unnamed"` when empty. -/
def truncateAndDefault (s : List Nat) : List Nat :=
  let t := if s.length > 255 then s.take 255 else s
  if t = [] then unnamedBytes else t

/-- `PathValidator.SanitizeFilename`: replace every dangerous pattern
(the singles and `".."`, in the order of the Go `dangerous` slice) by
`_`, truncate to 255 bytes, and fall back to `"unnamed"` when empty.
The Go loop iterates the list in order with `/` and `\` before `..`. -/
def sanitizeFilename (s : List Nat) : List Nat :=
  let s1 := replace1 47 underscore s
  let s2 := replace1 92 underscore s1
  let s3 := replace2 46 46 underscore s2
  let s4 := (dangerousSingles.drop 2).foldl (fun acc d => replace1 d underscore acc) s3
  truncateAndDefault s4

/-- A control byte in the sense of the spec claim: below 0x20 or DEL. -/
def isControlByte (c : Nat) : Bool :=
  c < 32 || c = 127

/-! ## TerminalBuffer (src/taskwrapper/app.go) -/

/-- `TerminalBuffer.getTotalBytes`: lines are byte strings. -/
def totalBytes (lines : List (List Nat)) : Nat :=
  (lines.map List.length).sum

/-- The eviction loop of `AddLine`: while over the line bound or the
byte bound, drop the oldest line; stop on an empty buffer. -/
def evict (maxLines maxBytes : Nat) : List (List Nat) → List (List Nat)
  | [] => []
  | l :: ls =>
    if (l :: ls).length > maxLines ∨ totalBytes (l :: ls) > maxBytes then
      evict maxLines maxBytes ls
    else l :: ls

/-- `NewTerminalBuffer` bounds. -/
def bufMaxLines : Nat := 100

/-- `NewTerminalBuffer` byte bound. -/
def bufMaxBytes : Nat := 50000

/-- `TerminalBuffer.AddLine`: append, then evict. -/
def addLine (lines : List (List Nat)) (line : List Nat) : List (List Nat) :=
  evict bufMaxLines bufMaxBytes (lines ++ [line])

/-! ## Terminal sessions (src/unnamed/part_009)

Session-table level: the operations the WebSocket flow performs on the
`terminals` map.  The child shell is identified by its pid; `conn`
models `terminal.Conn` (nil after a disconnect). -/

/-- One `Terminal` value: child process id, attached connection id (if
any), scrollback buffer. -/
structure Session where
  childPid : Nat
  conn : Option Nat
  buffer : List (List Nat)
  deriving Repr, DecidableEq

/-- The `TerminalService.terminals` map. -/
structure TermState where
  terminals : List (String × Session)
  deriving Repr, DecidableEq

/-- Lookup in the `terminals` map (`ts.terminals[terminalID]`). -/
def lookupSession : List (String × Session) → String → Option Session
  | [], _ => none
  | (k, v) :: rest, id => if k == id then some v else lookupSession rest id

/-- Assignment into the `terminals` map. -/
def updateSession : List (String × Session) → String → Session → List (String × Session)
  | [], _, _ => []
  | (k, v) :: rest, id, s =>
    if k == id then (k, s) :: updateSession rest id s
    else (k, v) :: updateSession rest id s

/-- `delete(ts.terminals, terminalID)`. -/
def removeSession : List (String × Session) → String → List (String × Session)
  | [], _ => []
  | (k, v) :: rest, id =>
    if k == id then removeSession rest id else (k, v) :: removeSession rest id

/-- Map lookup. -/
def getSession (st : TermState) (id : String) : Option Session :=
  lookupSession st.terminals id

/-- Update the session stored under an id. -/
def setSession (st : TermState) (id : String) (s : Session) : TermState :=
  { terminals := updateSession st.terminals id s }

/-- The deferred cleanup of `handleTerminalMessages`: only the
WebSocket connection is closed and cleared; the child keeps running
and the session stays in the map. -/
def clientDisconnect (st : TermState) (id : String) : TermState :=
  match getSession st id with
  | none => st
  | some s => setSession st id { s with conn := none }

/-- The reconnection branch of `HandleWebSocket`: rebind the
connection (the history replay is modelled separately, as it runs in
its own goroutine). -/
def reattach (st : TermState) (id : String) (c : Nat) : TermState :=
  match getSession st id with
  | none => st
  | some s => setSession st id { s with conn := some c }

/-- `readFromPty` on a data chunk: append to the ring buffer (the
forward to an attached client is modelled in the replay system). -/
def ptyOutput (st : TermState) (id : String) (chunk : List Nat) : TermState :=
  match getSession st id with
  | none => st
  | some s => setSession st id { s with buffer := addLine s.buffer chunk }

/-- `readFromPty` on EOF: the child process ended; `cleanupTerminal`
removes the session from the map. -/
def childExit (st : TermState) (id : String) : TermState :=
  { terminals := removeSession st.terminals id }

/-! Replay level: after a reconnect, `sendTerminalHistory` runs in a
goroutine concurrently with the live `readFromPty` forwarder.  A
schedule interleaves the two senders; `true` steps the history sender,
`false` the live forwarder. -/

/-- A framed message to the client. -/
inductive TermMsg where
  | history (chunk : List Nat)
  | output (chunk : List Nat)
  deriving Repr, DecidableEq

/-- The two concurrent senders after a reconnect: the not yet replayed
history lines, the not yet forwarded live chunks, and the messages the
client has received. -/
structure ReplayState where
  hist : List (List Nat)
  live : List (List Nat)
  sent : List TermMsg
  deriving Repr, DecidableEq

/-- One scheduler step: run the chosen sender for one message (a
sender with nothing to send leaves the state unchanged). -/
def replayStep (s : ReplayState) (pickHistory : Bool) : ReplayState :=
  if pickHistory then
    match s.hist with
    | [] => s
    | h :: hs => { s with hist := hs, sent := s.sent ++ [.history h] }
  else
    match s.live with
    | [] => s
    | o :: os => { s with live := os, sent := s.sent ++ [.output o] }

/-- Run a schedule. -/
def replayRun (s : ReplayState) (sched : List Bool) : ReplayState :=
  sched.foldl replayStep s

/-- The history messages among the received ones, in order. -/
def historyChunks (ms : List TermMsg) : List (List Nat) :=
  ms.filterMap (fun m => match m with | TermMsg.history h => some h | _ => none)

/-! ## Concrete sample data for witnesses and counterexamples -/

/-- A valid task exercising a non-nil deps slice. -/
def sampleTask1 : Task :=
  { id := 1, title := "T", status := "todo", priority := "medium",
    deps := some [2, 3], parent := none }

/-- A valid task exercising a nil deps slice and a parent pointer. -/
def sampleTask2 : Task :=
  { id := 2, title := "U", status := "done", priority := "low",
    deps := none, parent := some 1 }

/-- A small valid task list exercising all optional fields. -/
def sampleTasks : List Task := [sampleTask1, sampleTask2]

/-- Two otherwise valid tasks sharing the id 1. -/
def dupIdTasks : List Task :=
  [{ id := 1, title := "a", status := "todo", priority := "high",
     deps := some [], parent := none },
   { id := 1, title := "b", status := "todo", priority := "low",
     deps := none, parent := none }]

/-- A task with an empty title (otherwise valid). -/
def emptyTitleTask : Task :=
  { id := 1, title := "", status := "todo", priority := "low",
    deps := none, parent := none }

/-- A task list whose only task is under review. -/
def reviewTasks : List Task :=
  [{ id := 1, title := "T", status := "pending_review", priority := "medium",
     deps := some [], parent := none }]

/-- A git state holding the mainline and the branch of task 1. -/
def reviewGit : GitState :=
  { branches := ["main", "task_1"], log := [] }

/-- Liveness oracle for the pool witness: only pid 42 is running. -/
def alive0 : Int → Bool := fun p => p == 42

/-- A pool whose first slot has a dead-pid lease, second a live lease,
third no directory. -/
def stalePool : List Workspace :=
  [Workspace.leased { pid := some 10, started := some 0 },
   Workspace.leased { pid := some 42, started := some 9000 },
   Workspace.absent]

/-- A terminal table holding one session with a live child, an
attached client and one buffered chunk. -/
def term0 : TermState :=
  { terminals := [("s1", { childPid := 100, conn := some 5, buffer := [[104]] })] }

/-! ## Helper lemmas -/

theorem firstIdx_spec {α : Type} (p : α → Bool) (l : List α) (i : Nat)
    (h : firstIdx p l = some i) :
    ∃ x, l[i]? = some x ∧ p x = true ∧
      ∀ j, j < i → ∃ y, l[j]? = some y ∧ p y = false := by
  induction l generalizing i with
  | nil => simp [firstIdx] at h
  | cons a as ih =>
    by_cases ha : p a
    · simp [firstIdx, ha] at h
      subst h
      exact ⟨a, by simp, ha, fun j hj => absurd hj (Nat.not_lt_zero j)⟩
    · simp [firstIdx, ha] at h
      obtain ⟨k, hk, rfl⟩ := h
      obtain ⟨x, hx, hpx, hlt⟩ := ih k hk
      refine ⟨x, by simpa using hx, hpx, fun j hj => ?_⟩
      cases j with
      | zero => exact ⟨a, by simp, by simpa using ha⟩
      | succ j =>
        obtain ⟨y, hy, hpy⟩ := hlt j (by omega)
        exact ⟨y, by simpa using hy, hpy⟩

theorem firstIdx_none {α : Type} (p : α → Bool) (l : List α)
    (h : firstIdx p l = none) : ∀ x ∈ l, p x = false := by
  induction l with
  | nil => simp
  | cons a as ih =>
    by_cases ha : p a
    · simp [firstIdx, ha] at h
    · simp [firstIdx, ha] at h
      intro x hx
      rcases List.mem_cons.mp hx with rfl | hx
      · simpa using ha
      · exact ih h x hx

theorem firstIdx_isSome {α : Type} (p : α → Bool) (l : List α) (x : α)
    (hx : x ∈ l) (hp : p x = true) : (firstIdx p l).isSome := by
  cases h : firstIdx p l with
  | some i => rfl
  | none => rw [firstIdx_none p l h x hx] at hp; cases hp

theorem find?_of_firstIdx {α : Type} (p : α → Bool) (l : List α) (i : Nat) (x : α)
    (h : firstIdx p l = some i) (hx : l[i]? = some x) :
    l.find? p = some x := by
  induction l generalizing i with
  | nil => simp [firstIdx] at h
  | cons a as ih =>
    by_cases ha : p a
    · simp [firstIdx, ha] at h
      subst h
      simp at hx
      subst hx
      simp [List.find?_cons, ha]
    · simp [firstIdx, ha] at h
      obtain ⟨k, hk, rfl⟩ := h
      simp at hx
      rw [List.find?_cons]
      simp [ha]
      exact ih k hk hx

theorem firstIdx_of_find? {α : Type} (p : α → Bool) (l : List α) (x : α)
    (h : l.find? p = some x) :
    ∃ i, firstIdx p l = some i ∧ l[i]? = some x := by
  induction l with
  | nil => simp at h
  | cons a as ih =>
    by_cases ha : p a
    · rw [List.find?_cons] at h
      simp [ha] at h
      subst h
      exact ⟨0, by simp [firstIdx, ha], by simp⟩
    · rw [List.find?_cons] at h
      simp [ha] at h
      obtain ⟨i, hi, hx⟩ := ih h
      exact ⟨i + 1, by simp [firstIdx, ha, hi], by simpa using hx⟩

theorem mapOption_num_roundtrip (l : List Int) :
    mapOption (fun j => match j with | Json.num n => some n | _ => none)
      (l.map Json.num) = some l := by
  induction l with
  | nil => rfl
  | cons a as ih => simp [mapOption, ih]

theorem unmarshalDeps_marshalDeps (d : Option (List Int)) :
    unmarshalDeps (marshalDeps d) = some d := by
  cases d with
  | none => rfl
  | some l => simp [marshalDeps, unmarshalDeps, mapOption_num_roundtrip]

theorem unmarshalParent_marshalParent (p : Option Int) :
    unmarshalParent (marshalParent p) = some p := by
  cases p <;> rfl

theorem unmarshalTask_marshalTask (t : Task) :
    unmarshalTask (marshalTask t) = some t := by
  simp [marshalTask, unmarshalTask, jsonField, unmarshalDeps_marshalDeps,
    unmarshalParent_marshalParent, Option.bind]

theorem unmarshalTasks_marshalTasks (ts : List Task) :
    unmarshalTasks (marshalTasks ts) = some ts := by
  simp only [marshalTasks, unmarshalTasks]
  induction ts with
  | nil => rfl
  | cons t ts ih =>
    simp only [List.map_cons, mapOption, unmarshalTask_marshalTask]
    simp only [unmarshalTasks, marshalTasks] at ih
    simp [ih]

theorem validateTasks_ok_iff (ts : List Task) :
    validateTasks ts = .ok () ↔
      ∀ t ∈ ts, t.title ≠ "" ∧ statusValid t.status ∧ priorityValid t.priority := by
  induction ts with
  | nil => simp [validateTasks]
  | cons t ts ih =>
    by_cases h1 : t.title = ""
    · simp [validateTasks, h1]
    · by_cases h2 : statusValid t.status
      · by_cases h3 : priorityValid t.priority
        · simp [validateTasks, h1, h2, h3, ih]
        · simp [validateTasks, h1, h2, h3]
      · simp [validateTasks, h1, h2]

theorem validateTasks_error (ts : List Task)
    (h : ∃ t ∈ ts, t.title = "" ∨ statusValid t.status = false ∨
      priorityValid t.priority = false) :
    ∃ e, validateTasks ts = .error e := by
  cases hv : validateTasks ts with
  | error e => exact ⟨e, rfl⟩
  | ok u =>
    cases u
    obtain ⟨t, ht, hbad⟩ := h
    obtain ⟨ha, hb, hc⟩ := (validateTasks_ok_iff ts).mp hv t ht
    rcases hbad with h | h | h
    · exact absurd h ha
    · rw [hb] at h; cases h
    · rw [hc] at h; cases h

theorem evict_bounds (m b : Nat) (ls : List (List Nat)) :
    (evict m b ls).length ≤ m ∧ totalBytes (evict m b ls) ≤ b := by
  induction ls with
  | nil => simp [evict, totalBytes]
  | cons l ls ih =>
    simp only [evict]
    split_ifs with h
    · exact ih
    · push_neg at h
      exact ⟨h.1, h.2⟩

theorem evict_suffix (m b : Nat) (ls : List (List Nat)) :
    evict m b ls <:+ ls := by
  induction ls with
  | nil => simp [evict]
  | cons l ls ih =>
    simp only [evict]
    split_ifs with h
    · exact ih.trans (List.suffix_cons l ls)
    · exact List.suffix_refl (l :: ls)

theorem totalBytes_append (ls : List (List Nat)) (x : List Nat) :
    totalBytes (ls ++ [x]) = totalBytes ls + x.length := by
  simp [totalBytes]

theorem evict_nil_of_big (m b : Nat) (ls : List (List Nat)) (x : List Nat)
    (h : x.length > b) : evict m b (ls ++ [x]) = [] := by
  induction ls with
  | nil =>
    have hc : totalBytes [x] > b := by simpa [totalBytes] using h
    simp only [List.nil_append, evict]
    rw [if_pos (Or.inr hc)]
  | cons l ls ih =>
    have hc : totalBytes (l :: (ls ++ [x])) > b := by
      have h2 := totalBytes_append ls x
      simp only [totalBytes, List.map_cons, List.sum_cons] at *
      omega
    rw [List.cons_append, evict, if_pos (Or.inr hc), ih]

/-! ## Claim C10 -/

/-- C10: after every `TerminalBuffer.AddLine` the buffer holds at most
100 lines and at most 50000 total bytes; eviction removes the oldest
lines first (the result is a suffix of the appended buffer); and when
the newly appended chunk alone exceeds 50000 bytes the eviction loop
removes every stored line including the new chunk, leaving the buffer
empty. -/
theorem claim_C10_addLine_bounds (lines : List (List Nat)) (line : List Nat) :
    (addLine lines line).length ≤ bufMaxLines ∧
    totalBytes (addLine lines line) ≤ bufMaxBytes ∧
    addLine lines line <:+ lines ++ [line] ∧
    (line.length > bufMaxBytes → addLine lines line = []) := by
  refine ⟨(evict_bounds _ _ _).1, (evict_bounds _ _ _).2,
    evict_suffix _ _ _, fun h => ?_⟩
  exact evict_nil_of_big bufMaxLines bufMaxBytes lines line h

/-- C10 witness: a 50001-byte chunk empties the buffer. -/
theorem claim_C10_addLine_bounds_witness :
    addLine [[7]] (List.replicate 50001 0) = [] ∧
    (addLine [[7]] (List.replicate 50001 0)).length ≤ bufMaxLines := by
  have h := claim_C10_addLine_bounds [[7]] (List.replicate 50001 0)
  have hb : (List.replicate 50001 (0 : Nat)).length > bufMaxBytes := by
    rw [List.length_replicate, bufMaxBytes]
    omega
  exact ⟨h.2.2.2 hb, h.1⟩

/-! ## Claim C6 -/

/-- C6: for every task list that passes validation, `SaveTasks`
succeeds and a subsequent `LoadTasks` parses the persisted file back
to exactly the saved sequence, preserving order and every field. -/
theorem claim_C6_save_load_roundtrip (st : SvcState) (tasks : List Task)
    (hv : validateTasks tasks = .ok ()) :
    (svcSaveTasks st tasks).2 = .ok () ∧
    (svcLoadTasks (svcSaveTasks st tasks).1).2 = .ok tasks ∧
    (svcLoadTasks (svcSaveTasks st tasks).1).1.mem = tasks := by
  simp [svcSaveTasks, hv, svcLoadTasks, persist, unmarshalTasks_marshalTasks]

/-- C6 witness: the round trip on a concrete two-task list. -/
theorem claim_C6_save_load_roundtrip_witness :
    (svcLoadTasks (svcSaveTasks ⟨[], Json.null⟩ sampleTasks).1).2 = .ok sampleTasks :=
  (claim_C6_save_load_roundtrip ⟨[], Json.null⟩ sampleTasks (by rfl)).2.1

/-! ## Claim C7 -/

/-- A task failing one of the three `validateTasks` checks. -/
def badTask (t : Task) : Bool :=
  t.title == "" || !statusValid t.status || !priorityValid t.priority

theorem badTask_iff (t : Task) :
    badTask t = true ↔
      t.title = "" ∨ statusValid t.status = false ∨ priorityValid t.priority = false := by
  simp [badTask]
  tauto

/-- C7 (amended): before every write (`SaveTasks` and `UpdateTask`)
validation rejects the write with an error — leaving the in-memory
list and the task file unchanged — whenever any task has an empty
title, an invalid status, or an invalid priority; any list all of
whose tasks pass those three checks is saved, so duplicate ids are not
rejected. -/
theorem claim_C7_validation_guards (st : SvcState) (tasks : List Task) (task : Task) :
    ((∃ t ∈ tasks, badTask t) →
      (svcSaveTasks st tasks).1 = st ∧ ∃ e, (svcSaveTasks st tasks).2 = .error e) ∧
    ((∀ t ∈ tasks, badTask t = false) → (svcSaveTasks st tasks).2 = .ok ()) ∧
    (badTask task →
      (svcUpdateTask st task).1 = st ∧ ∃ e, (svcUpdateTask st task).2 = .error e) := by
  refine ⟨fun h => ?_, fun h => ?_, fun h => ?_⟩
  · obtain ⟨t, ht, hb⟩ := h
    obtain ⟨e, he⟩ := validateTasks_error tasks ⟨t, ht, (badTask_iff t).mp hb⟩
    simp [svcSaveTasks, he]
  · have hv : validateTasks tasks = .ok () := by
      rw [validateTasks_ok_iff]
      intro t ht
      have hb := h t ht
      simp [badTask] at hb
      exact ⟨hb.1.1, hb.1.2, hb.2⟩
    simp [svcSaveTasks, hv]
  · obtain ⟨e, he⟩ := validateTasks_error [task] ⟨task, by simp, (badTask_iff task).mp h⟩
    simp [svcUpdateTask, he]

/-- C7 witness: a list with an empty title is rejected unchanged, and a
fully valid list is accepted. -/
theorem claim_C7_validation_guards_witness :
    ((svcSaveTasks ⟨[], Json.null⟩ [emptyTitleTask]).1 = ⟨[], Json.null⟩ ∧
      ∃ e, (svcSaveTasks ⟨[], Json.null⟩ [emptyTitleTask]).2 = .error e) ∧
    (svcSaveTasks ⟨[], Json.null⟩ sampleTasks).2 = .ok () := by
  constructor
  · exact (claim_C7_validation_guards ⟨[], Json.null⟩ [emptyTitleTask] emptyTitleTask).1
      ⟨emptyTitleTask, by simp, by decide⟩
  · exact (claim_C7_validation_guards ⟨[], Json.null⟩ sampleTasks emptyTitleTask).2.1
      (by decide)

/-- C7 counterexample: two tasks sharing id 1 pass validation and the
save succeeds, so uniqueness of ids is not enforced before writes. -/
theorem claim_C7_counterexample :
    dupIdTasks.map Task.id = [1, 1] ∧
    validateTasks dupIdTasks = .ok () ∧
    (svcSaveTasks ⟨[], Json.null⟩ dupIdTasks).2 = .ok () ∧
    (svcSaveTasks ⟨[], Json.null⟩ dupIdTasks).1.mem = dupIdTasks := by
  have hv : validateTasks dupIdTasks = .ok () := by rfl
  refine ⟨by decide, hv, ?_, ?_⟩
  · simp [svcSaveTasks, hv]
  · simp [svcSaveTasks, hv]

/-! ## Claim C8 -/

/-- C8: `TaskService.MoveTask` with a present id and a valid status
mutates only the status field of the first task with that id, leaving
its other fields and every other list entry unchanged; with an invalid
status it fails with the invalid-status error, and with an absent id
with the not-found error, both leaving the state unchanged. -/
theorem claim_C8_moveTask_frame (st : SvcState) (taskID : Int) (s : String) :
    (statusValid s = false →
      svcMoveTask st taskID s = (st, .error (.invalidStatusArg s))) ∧
    (statusValid s = true → findTaskIdx st.mem taskID = none →
      svcMoveTask st taskID s = (st, .error (.notFound taskID))) ∧
    (∀ i, statusValid s = true → findTaskIdx st.mem taskID = some i →
      ∃ t, st.mem[i]? = some t ∧ t.id = taskID ∧
        (∀ j, j < i → ∃ u, st.mem[j]? = some u ∧ u.id ≠ taskID) ∧
        (svcMoveTask st taskID s).2 = .ok () ∧
        (svcMoveTask st taskID s).1.mem = st.mem.set i { t with status := s } ∧
        (∀ j, j ≠ i → (svcMoveTask st taskID s).1.mem[j]? = st.mem[j]?) ∧
        (svcMoveTask st taskID s).1.file
          = persist (st.mem.set i { t with status := s })) := by
  refine ⟨fun hs => ?_, fun hs hn => ?_, fun i hs hi => ?_⟩
  · simp [svcMoveTask, parseTaskStatus, hs]
  · simp [svcMoveTask, parseTaskStatus, hs, hn]
  · obtain ⟨t, ht, hpt, hlt⟩ := firstIdx_spec _ _ _ hi
    refine ⟨t, ht, by simpa using hpt, ?_, ?_, ?_, ?_, ?_⟩
    · intro j hj
      obtain ⟨u, hu, hpu⟩ := hlt j hj
      exact ⟨u, hu, by simpa using hpu⟩
    · simp [svcMoveTask, parseTaskStatus, hs, findTaskIdx] at hi ⊢
      rw [hi]
      simp [List.get?_eq_getElem?, ht]
    · simp [svcMoveTask, parseTaskStatus, hs, findTaskIdx] at hi ⊢
      rw [hi]
      simp [List.get?_eq_getElem?, ht]
    · intro j hj
      simp [svcMoveTask, parseTaskStatus, hs, findTaskIdx] at hi ⊢
      rw [hi]
      simp [List.get?_eq_getElem?, ht, List.getElem?_set_ne (Ne.symm hj)]
    · simp [svcMoveTask, parseTaskStatus, hs, findTaskIdx] at hi ⊢
      rw [hi]
      simp [List.get?_eq_getElem?, ht]

/-- C8 witness: moving task 1 of the sample list to `doing` rewrites
exactly the status field of the first entry. -/
theorem claim_C8_moveTask_frame_witness :
    (svcMoveTask ⟨sampleTasks, Json.null⟩ 1 "doing").2 = .ok () ∧
    (svcMoveTask ⟨sampleTasks, Json.null⟩ 1 "doing").1.mem =
      [{ sampleTask1 with status := "doing" }, sampleTask2] := by
  obtain ⟨t, ht, -, -, hok, hmem, -, -⟩ :=
    (claim_C8_moveTask_frame ⟨sampleTasks, Json.null⟩ 1 "doing").2.2 0
      (by decide) (by decide)
  have ht2 : t = sampleTask1 := by
    have hx : sampleTasks[0]? = some sampleTask1 := by decide
    rw [hx] at ht
    exact (Option.some.inj ht).symm
  subst ht2
  refine ⟨hok, ?_⟩
  rw [hmem]
  decide

/-! ## Claim C1 -/

theorem svcMoveTask_ok_eq (st : SvcState) (taskID : Int) (s : String) (i : Nat) (t : Task)
    (hs : statusValid s = true) (hi : findTaskIdx st.mem taskID = some i)
    (ht : st.mem[i]? = some t) :
    svcMoveTask st taskID s =
      ({ mem := st.mem.set i { t with status := s },
         file := persist (st.mem.set i { t with status := s }) }, .ok ()) := by
  unfold svcMoveTask
  simp only [parseTaskStatus, hs, if_true]
  rw [hi]
  simp [List.get?_eq_getElem?, ht]

/-- C1: in `App.MoveTask` the Agent Spawner is invoked if and only if a
task with the id exists, its old status is `todo`, and the new status
is `doing`; when it is invoked the event trace is the persist followed
by the spawn, the persisted snapshot already carries status `doing`,
and the final state and the caller-visible result are independent of
the spawn outcome (a spawner failure is only logged and never reverts
the persisted status). -/
theorem claim_C1_moveTask_spawn (st : SvcState) (taskID : Int)
    (newStatus : String) (spawnOk : Bool) :
    ((∃ b, AppEvent.spawnAgent taskID b ∈ (appMoveTask st taskID newStatus spawnOk).2.2) ↔
      (∃ t, findTask st.mem taskID = some t ∧ t.status = "todo" ∧ newStatus = "doing")) ∧
    (∀ t, findTask st.mem taskID = some t → t.status = "todo" → newStatus = "doing" →
      ∃ i, findTaskIdx st.mem taskID = some i ∧
        (appMoveTask st taskID newStatus spawnOk).1.mem
          = st.mem.set i { t with status := "doing" } ∧
        (appMoveTask st taskID newStatus spawnOk).1.file
          = persist ((appMoveTask st taskID newStatus spawnOk).1.mem) ∧
        (appMoveTask st taskID newStatus spawnOk).2.1 = .ok () ∧
        (appMoveTask st taskID newStatus spawnOk).2.2
          = [.persisted ((appMoveTask st taskID newStatus spawnOk).1.file),
             .spawnAgent taskID spawnOk]) ∧
    (∀ b2, (appMoveTask st taskID newStatus b2).1
        = (appMoveTask st taskID newStatus spawnOk).1 ∧
      (appMoveTask st taskID newStatus b2).2.1
        = (appMoveTask st taskID newStatus spawnOk).2.1) := by
  refine ⟨⟨fun hspawn => ?_, fun hcond => ?_⟩, fun t hfind htodo hdoing => ?_, fun b2 => ?_⟩
  · obtain ⟨b, hb⟩ := hspawn
    cases hfind : findTask st.mem taskID with
    | none =>
      rw [appMoveTask.eq_def] at hb
      simp [hfind] at hb
    | some old =>
      rcases hsvc : svcMoveTask st taskID newStatus with ⟨st1, res⟩
      cases res with
      | error e =>
        rw [appMoveTask.eq_def] at hb
        simp [hfind, hsvc] at hb
      | ok u =>
        cases u
        rw [appMoveTask.eq_def] at hb
        simp only [hfind, hsvc] at hb
        by_cases hc : old.status = "todo" ∧ newStatus = "doing"
        · exact ⟨old, rfl, hc.1, hc.2⟩
        · simp [hc] at hb
  · obtain ⟨t, hfind, htodo, hdoing⟩ := hcond
    obtain ⟨i, hi, hti⟩ := firstIdx_of_find? _ _ _ hfind
    have hok := svcMoveTask_ok_eq st taskID newStatus i t (by rw [hdoing]; rfl) hi hti
    rw [appMoveTask.eq_def]
    simp only [hfind, hok]
    simp [htodo, hdoing]
  · obtain ⟨i, hi, hti⟩ := firstIdx_of_find? _ _ _ hfind
    have hok := svcMoveTask_ok_eq st taskID newStatus i t (by rw [hdoing]; rfl) hi hti
    refine ⟨i, hi, ?_⟩
    rw [appMoveTask.eq_def]
    simp only [hfind, hok]
    simp [htodo, hdoing, persist]
  · rw [appMoveTask.eq_def, appMoveTask.eq_def]
    cases hfind : findTask st.mem taskID with
    | none => simp
    | some old =>
      rcases hsvc : svcMoveTask st taskID newStatus with ⟨st1, res⟩
      cases res with
      | error e => simp
      | ok u =>
        cases u
        by_cases hc : old.status = "todo" ∧ newStatus = "doing"
        · simp [hc]
        · simp [hc]

/-- C1 witness: moving the sample `todo` task to `doing` spawns the
agent after the persist, and a failing spawn leaves the same state. -/
theorem claim_C1_moveTask_spawn_witness :
    (∃ b, AppEvent.spawnAgent 1 b ∈ (appMoveTask ⟨sampleTasks, Json.null⟩ 1 "doing" true).2.2) ∧
    (appMoveTask ⟨sampleTasks, Json.null⟩ 1 "doing" false).1
      = (appMoveTask ⟨sampleTasks, Json.null⟩ 1 "doing" true).1 := by
  have h := claim_C1_moveTask_spawn ⟨sampleTasks, Json.null⟩ 1 "doing" true
  refine ⟨h.1.mpr ⟨sampleTask1, by decide, by decide, rfl⟩, (h.2.2 false).1⟩

/-! ## Claims C2 and C3 -/

theorem svcUpdateTask_ok_eq (st : SvcState) (task : Task) (i : Nat)
    (hv : validateTasks [task] = .ok ()) (hi : findTaskIdx st.mem task.id = some i) :
    svcUpdateTask st task =
      ({ mem := st.mem.set i task, file := persist (st.mem.set i task) }, .ok ()) := by
  unfold svcUpdateTask
  rw [hv, hi]

theorem goHasPrefix_prepend (p x : String) : goHasPrefix (p ++ x) p = true := by
  unfold goHasPrefix
  rw [List.isPrefixOf_iff_prefix, String.data_append]
  exact List.prefix_append p.data x.data

theorem notMerged_append_ne_empty (x : String) : "NOT MERGED: " ++ x ≠ "" := by
  intro h
  have : ("NOT MERGED: " ++ x).data = ("" : String).data := by rw [h]
  rw [String.data_append] at this
  simp at this

theorem rejectTitle_hasPrefix (x : String) (hx : x ≠ "") :
    goHasPrefix (rejectTitle x) "NOT MERGED: " = true := by
  unfold rejectTitle
  by_cases hp : goHasPrefix x "NOT MERGED: " = true
  · simp [hp]
  · simp only [Bool.not_eq_true] at hp
    simp [hx, hp, goHasPrefix_prepend]

theorem rejectTitle_idem (x : String) : rejectTitle (rejectTitle x) = rejectTitle x := by
  by_cases hx : x = ""
  · subst hx
    simp [rejectTitle]
  · by_cases hp : goHasPrefix x "NOT MERGED: " = true
    · have h1 : rejectTitle x = x := by simp [rejectTitle, hp]
      rw [h1, h1]
    · simp only [Bool.not_eq_true] at hp
      have h1 : rejectTitle x = "NOT MERGED: " ++ x := by simp [rejectTitle, hx, hp]
      rw [h1]
      simp [rejectTitle, notMerged_append_ne_empty x, goHasPrefix_prepend]

theorem rejectTitle_ne_empty_cases (x : String) (h : rejectTitle x ≠ "") : x ≠ "" := by
  intro hx
  subst hx
  simp [rejectTitle] at h

/-- C2 (amended): for every `approve_task(id)` call that returns
success on a task in `pending_review`, the branch `task_<id>` has been
merged into the mainline with a non-fast-forward merge whose commit
message is `Merge task #<id>: <title>`, and the task's persisted
status is `done`; the branch deletion is attempted after the merge but
a deletion failure is only logged, so the branch is guaranteed gone
only when the delete succeeded (`deleteOk`). -/
theorem claim_C2_approve (st : SvcState) (git : GitState) (mergeOk deleteOk : Bool)
    (taskID : Int)
    (hok : (appApproveTask st git mergeOk deleteOk taskID).2.2 = .ok ()) :
    ∃ t i, findTask st.mem taskID = some t ∧ t.status = "pending_review" ∧
      (appApproveTask st git mergeOk deleteOk taskID).2.1.log
        = git.log ++ [{ branch := branchName taskID,
                        message := mergeMessage taskID t.title, noFF := true }] ∧
      (deleteOk = true → git.branches.Nodup →
        branchName taskID ∉ (appApproveTask st git mergeOk deleteOk taskID).2.1.branches) ∧
      findTaskIdx st.mem taskID = some i ∧
      (appApproveTask st git mergeOk deleteOk taskID).1.mem
        = st.mem.set i { t with status := "done" } ∧
      (appApproveTask st git mergeOk deleteOk taskID).1.file
        = persist ((appApproveTask st git mergeOk deleteOk taskID).1.mem) := by
  cases hfind : findTask st.mem taskID with
  | none =>
    rw [appApproveTask.eq_def] at hok
    simp [hfind] at hok
  | some t =>
    have hid : t.id = taskID := by
      have := List.find?_some (p := fun (u : Task) => u.id == taskID) (by simpa [findTask] using hfind)
      simpa using this
    by_cases hst : t.status = "pending_review"
    swap
    · rw [appApproveTask.eq_def] at hok
      simp [hfind, hst] at hok
    by_cases hbr : branchName taskID ∈ git.branches
    swap
    · rw [appApproveTask.eq_def] at hok
      simp [hfind, hst, agentApproveTask, hbr] at hok
    cases mergeOk with
    | false =>
      rw [appApproveTask.eq_def] at hok
      simp [hfind, hst, agentApproveTask, hbr] at hok
    | true =>
      have hagent : agentApproveTask git true deleteOk taskID t.title =
          ({ branches := if deleteOk then git.branches.erase (branchName taskID)
                         else git.branches,
             log := git.log ++ [{ branch := branchName taskID,
                                  message := mergeMessage taskID t.title, noFF := true }] },
           .ok ()) := by
        cases deleteOk <;> simp [agentApproveTask, hbr]
      cases hv : validateTasks [{ t with status := "done" }] with
      | error e =>
        rw [appApproveTask.eq_def] at hok
        simp only [hfind, hst] at hok
        rw [hagent] at hok
        simp [svcUpdateTask, hv] at hok
      | ok u =>
        cases u
        cases hidx : findTaskIdx st.mem t.id with
        | none =>
          rw [appApproveTask.eq_def] at hok
          simp only [hfind, hst] at hok
          rw [hagent] at hok
          simp [svcUpdateTask, hv, hidx] at hok
        | some i =>
          have hupd := svcUpdateTask_ok_eq st { t with status := "done" } i hv (by simpa using hidx)
          refine ⟨t, i, rfl, hst, ?_, ?_, by rw [← hid]; exact hidx, ?_, ?_⟩ <;>
            rw [appApproveTask.eq_def] <;>
            simp only [hfind, hst] <;>
            rw [hagent] <;>
            simp only [hupd] <;>
            simp
          intro hdel hnd
          subst hdel
          simp
          exact hnd.not_mem_erase

/-- C2 witness: approving the sample review task with a succeeding
delete merges with the right message, removes the branch and persists
status `done`. -/
theorem claim_C2_approve_witness :
    ∃ t i, findTask reviewTasks 1 = some t ∧ t.status = "pending_review" ∧
      (appApproveTask ⟨reviewTasks, Json.null⟩ reviewGit true true 1).2.1.log
        = reviewGit.log ++ [{ branch := branchName 1,
                              message := mergeMessage 1 t.title, noFF := true }] ∧
      (true = true → reviewGit.branches.Nodup →
        branchName 1 ∉ (appApproveTask ⟨reviewTasks, Json.null⟩ reviewGit true true 1).2.1.branches) ∧
      findTaskIdx reviewTasks 1 = some i ∧
      (appApproveTask ⟨reviewTasks, Json.null⟩ reviewGit true true 1).1.mem
        = reviewTasks.set i { t with status := "done" } ∧
      (appApproveTask ⟨reviewTasks, Json.null⟩ reviewGit true true 1).1.file
        = persist ((appApproveTask ⟨reviewTasks, Json.null⟩ reviewGit true true 1).1.mem) :=
  claim_C2_approve ⟨reviewTasks, Json.null⟩ reviewGit true true 1 (by rfl)

/-- C2 counterexample: with the merge succeeding but the branch delete
failing, `approve_task(1)` still returns success while `task_1` still
exists, so a successful approve does not guarantee the branch is gone. -/
theorem claim_C2_counterexample :
    (appApproveTask ⟨reviewTasks, Json.null⟩ reviewGit true false 1).2.2 = .ok () ∧
    "task_1" ∈ (appApproveTask ⟨reviewTasks, Json.null⟩ reviewGit true false 1).2.1.branches :=
  ⟨by rfl, by decide⟩

/-- C3 (amended): for every `reject_task(id)` call that returns
success on a task in `pending_review`, the task's persisted status is
`done` and its title begins with `NOT MERGED: `, the marker being
prepended only when not already present (a repeated reject never
double-prepends); the branch force-delete is best effort, so the
branch is guaranteed gone only when the delete succeeded (`deleteOk`). -/
theorem claim_C3_reject (st : SvcState) (git : GitState) (deleteOk : Bool)
    (taskID : Int)
    (hok : (appRejectTask st git deleteOk taskID).2.2 = .ok ()) :
    ∃ t i, findTask st.mem taskID = some t ∧ t.status = "pending_review" ∧
      (deleteOk = true → git.branches.Nodup →
        branchName taskID ∉ (appRejectTask st git deleteOk taskID).2.1.branches) ∧
      findTaskIdx st.mem taskID = some i ∧
      (appRejectTask st git deleteOk taskID).1.mem
        = st.mem.set i { t with title := rejectTitle t.title, status := "done" } ∧
      goHasPrefix (rejectTitle t.title) "NOT MERGED: " = true ∧
      rejectTitle (rejectTitle t.title) = rejectTitle t.title ∧
      (appRejectTask st git deleteOk taskID).1.file
        = persist ((appRejectTask st git deleteOk taskID).1.mem) := by
  cases hfind : findTask st.mem taskID with
  | none =>
    rw [appRejectTask.eq_def] at hok
    simp [hfind] at hok
  | some t =>
    have hid : t.id = taskID := by
      have := List.find?_some (p := fun (u : Task) => u.id == taskID)
        (by simpa [findTask] using hfind)
      simpa using this
    by_cases hst : t.status = "pending_review"
    swap
    · rw [appRejectTask.eq_def] at hok
      simp [hfind, hst] at hok
    have hagent : agentRejectTask git deleteOk taskID =
        ({ git with branches := if deleteOk then git.branches.erase (branchName taskID)
                                else git.branches }, .ok ()) := by
      cases deleteOk <;> simp [agentRejectTask]
    cases hv : validateTasks [{ t with title := rejectTitle t.title, status := "done" }] with
    | error e =>
      rw [appRejectTask.eq_def] at hok
      simp only [hfind, hst] at hok
      rw [hagent] at hok
      simp [svcUpdateTask, hv] at hok
    | ok u =>
      cases u
      have htne : rejectTitle t.title ≠ "" := by
        rw [validateTasks_ok_iff] at hv
        have h1 := (hv { t with title := rejectTitle t.title, status := "done" } (by simp)).1
        simpa using h1
      have htitle : t.title ≠ "" := rejectTitle_ne_empty_cases t.title htne
      cases hidx : findTaskIdx st.mem t.id with
      | none =>
        rw [appRejectTask.eq_def] at hok
        simp only [hfind, hst] at hok
        rw [hagent] at hok
        simp [svcUpdateTask, hv, hidx] at hok
      | some i =>
        have hupd := svcUpdateTask_ok_eq st
          { t with title := rejectTitle t.title, status := "done" } i hv (by simpa using hidx)
        refine ⟨t, i, rfl, hst, ?_, by rw [← hid]; exact hidx, ?_,
          rejectTitle_hasPrefix t.title htitle, rejectTitle_idem t.title, ?_⟩ <;>
          rw [appRejectTask.eq_def] <;>
          simp only [hfind, hst] <;>
          rw [hagent] <;>
          simp only [hupd] <;>
          simp
        intro hdel hnd
        subst hdel
        simp
        exact hnd.not_mem_erase

/-- C3 witness: rejecting the sample review task with a succeeding
delete removes the branch, marks the title and persists `done`. -/
theorem claim_C3_reject_witness :
    ∃ t i, findTask reviewTasks 1 = some t ∧ t.status = "pending_review" ∧
      (true = true → reviewGit.branches.Nodup →
        branchName 1 ∉ (appRejectTask ⟨reviewTasks, Json.null⟩ reviewGit true 1).2.1.branches) ∧
      findTaskIdx reviewTasks 1 = some i ∧
      (appRejectTask ⟨reviewTasks, Json.null⟩ reviewGit true 1).1.mem
        = reviewTasks.set i { t with title := rejectTitle t.title, status := "done" } ∧
      goHasPrefix (rejectTitle t.title) "NOT MERGED: " = true ∧
      rejectTitle (rejectTitle t.title) = rejectTitle t.title ∧
      (appRejectTask ⟨reviewTasks, Json.null⟩ reviewGit true 1).1.file
        = persist ((appRejectTask ⟨reviewTasks, Json.null⟩ reviewGit true 1).1.mem) :=
  claim_C3_reject ⟨reviewTasks, Json.null⟩ reviewGit true 1 (by rfl)

/-- C3 counterexample: with the branch force-delete failing,
`reject_task(1)` still returns success while `task_1` still exists, so
a successful reject does not guarantee the branch is gone. -/
theorem claim_C3_counterexample :
    (appRejectTask ⟨reviewTasks, Json.null⟩ reviewGit false 1).2.2 = .ok () ∧
    "task_1" ∈ (appRejectTask ⟨reviewTasks, Json.null⟩ reviewGit false 1).2.1.branches :=
  ⟨by rfl, by decide⟩

/-! ## Claim C4 -/

theorem firstIdx_of_minimal {α : Type} (p : α → Bool) (l : List α) (i : Nat) (x : α)
    (hx : l[i]? = some x) (hpx : p x = true)
    (hmin : ∀ j y, j < i → l[j]? = some y → p y = false) :
    firstIdx p l = some i := by
  induction l generalizing i with
  | nil => simp at hx
  | cons a as ih =>
    cases i with
    | zero =>
      simp at hx
      subst hx
      simp [firstIdx, hpx]
    | succ i =>
      have ha : p a = false := hmin 0 a (Nat.succ_pos i) (by simp)
      simp at hx
      have := ih i hx (fun j y hj hy => hmin (j + 1) y (by omega) (by simpa using hy))
      simp [firstIdx, ha, this]

theorem firstIdx_none_of_all {α : Type} (p : α → Bool) (l : List α)
    (h : ∀ x ∈ l, p x = false) : firstIdx p l = none := by
  induction l with
  | nil => rfl
  | cons a as ih =>
    simp [firstIdx, h a (by simp)]
    exact ih (fun x hx => h x (by simp [hx]))

/-- C4: the workspace allocation of `agent_spawn.sh`.  Indices are
inspected in increasing order; a lease with a dead owning pid or a
start older than the timeout (default 7200 s) is purged and its
workspace treated as idle; the existing idle workspace with the
smallest index is reused; when none is idle a new workspace is created
at the smallest missing index only if fewer workspaces exist than the
maximum, and otherwise the acquire fails pool-full leaving the purged
pool unchanged without allocating. -/
theorem claim_C4_acquire (alive : Int → Bool) (now timeout : Int) (lease : Lease)
    (ws : List Workspace) :
    (defaultLockTimeout = 7200) ∧
    (∀ p s, staleLease alive now timeout { pid := some p, started := some s } = true ↔
      alive p = false ∨ now - s > timeout) ∧
    (∀ l, staleLease alive now timeout l = true →
      purgeWorkspace alive now timeout (Workspace.leased l) = Workspace.idle) ∧
    (∀ i, (ws.map (purgeWorkspace alive now timeout))[i]? = some Workspace.idle →
      (∀ j y, j < i → (ws.map (purgeWorkspace alive now timeout))[j]? = some y →
        y ≠ Workspace.idle) →
      acquireWorkspace alive now timeout lease ws
        = ((ws.map (purgeWorkspace alive now timeout)).set i (Workspace.leased lease),
           .ok (i + 1))) ∧
    ((∀ w ∈ ws.map (purgeWorkspace alive now timeout), w ≠ Workspace.idle) →
      ∀ j, (ws.map (purgeWorkspace alive now timeout))[j]? = some Workspace.absent →
      (∀ k y, k < j → (ws.map (purgeWorkspace alive now timeout))[k]? = some y →
        y ≠ Workspace.absent) →
      ((ws.map (purgeWorkspace alive now timeout)).filter
          (fun w => w != Workspace.absent)).length < ws.length →
      acquireWorkspace alive now timeout lease ws
        = ((ws.map (purgeWorkspace alive now timeout)).set j (Workspace.leased lease),
           .ok (j + 1))) ∧
    ((∀ w ∈ ws.map (purgeWorkspace alive now timeout), w ≠ Workspace.idle) →
      ((ws.map (purgeWorkspace alive now timeout)).filter
          (fun w => w != Workspace.absent)).length ≥ ws.length →
      acquireWorkspace alive now timeout lease ws
        = (ws.map (purgeWorkspace alive now timeout), .error PoolError.poolFull)) := by
  refine ⟨rfl, fun p s => ?_, fun l h => ?_, fun i hidle hmin => ?_,
    fun hno j habs hminabs hbelow => ?_, fun hno hfull => ?_⟩
  · simp [staleLease]
  · simp [purgeWorkspace, h]
  · have hfirst : firstIdx (fun w => w == Workspace.idle)
        (ws.map (purgeWorkspace alive now timeout)) = some i := by
      refine firstIdx_of_minimal _ _ i Workspace.idle hidle rfl (fun j y hj hy => ?_)
      have := hmin j y hj hy
      simpa using this
    simp only [acquireWorkspace]
    rw [hfirst]
  · have hnone : firstIdx (fun w => w == Workspace.idle)
        (ws.map (purgeWorkspace alive now timeout)) = none := by
      refine firstIdx_none_of_all _ _ (fun x hx => ?_)
      have := hno x hx
      simpa using this
    have hfirst : firstIdx (fun w => w == Workspace.absent)
        (ws.map (purgeWorkspace alive now timeout)) = some j := by
      refine firstIdx_of_minimal _ _ j Workspace.absent habs rfl (fun k y hk hy => ?_)
      have := hminabs k y hk hy
      simpa using this
    simp only [acquireWorkspace]
    rw [hnone]
    rw [List.length_map]
    rw [if_neg (Nat.not_le.mpr hbelow)]
    rw [hfirst]
  · have hnone : firstIdx (fun w => w == Workspace.idle)
        (ws.map (purgeWorkspace alive now timeout)) = none := by
      refine firstIdx_none_of_all _ _ (fun x hx => ?_)
      have := hno x hx
      simpa using this
    simp only [acquireWorkspace]
    rw [hnone]
    rw [List.length_map]
    rw [if_pos hfull]

/-- C4 witness: a pool with a dead-pid lease at index 1, a live lease
at index 2 and no index-3 directory reclaims and reuses index 1. -/
theorem claim_C4_acquire_witness :
    acquireWorkspace alive0 10000 7200 { pid := some 99, started := some 10000 } stalePool
      = ([Workspace.leased { pid := some 99, started := some 10000 },
          Workspace.leased { pid := some 42, started := some 9000 },
          Workspace.absent], .ok 1) := by
  have h := (claim_C4_acquire alive0 10000 7200
      { pid := some 99, started := some 10000 } stalePool).2.2.2.1 0
    (by decide) (fun j y hj _ => absurd hj (Nat.not_lt_zero j))
  rw [h]
  rfl

/-! ## Claim C9 -/

theorem mem_replace1 (c d r : Nat) (s : List Nat) (h : c ∈ replace1 d r s) :
    c = r ∨ c ∈ s := by
  induction s with
  | nil => simp [replace1] at h
  | cons a as ih =>
    simp only [replace1] at h
    rcases List.mem_cons.mp h with h1 | h1
    · by_cases ha : a = d
      · simp [ha] at h1
        exact Or.inl h1
      · simp [ha] at h1
        exact Or.inr (by simp [h1])
    · rcases ih h1 with h2 | h2
      · exact Or.inl h2
      · exact Or.inr (by simp [h2])

theorem not_mem_replace1_self (d r : Nat) (s : List Nat) (h : d ≠ r) :
    d ∉ replace1 d r s := by
  induction s with
  | nil => simp [replace1]
  | cons a as ih =>
    simp only [replace1]
    intro hmem
    rcases List.mem_cons.mp hmem with h1 | h1
    · by_cases ha : a = d
      · simp [ha] at h1
        exact h h1
      · simp [ha] at h1
        exact ha h1.symm
    · exact ih h1

theorem mem_replace2 (c d1 d2 r : Nat) (s : List Nat) (h : c ∈ replace2 d1 d2 r s) :
    c = r ∨ c ∈ s := by
  induction s using replace2.induct d1 d2 r with
  | case1 => simp [replace2] at h
  | case2 a => simp [replace2] at h; simp [h]
  | case3 a b cs hab ih =>
    simp only [replace2, if_pos hab] at h
    rcases List.mem_cons.mp h with h1 | h1
    · exact Or.inl h1
    · rcases ih h1 with h2 | h2
      · exact Or.inl h2
      · exact Or.inr (by simp [h2])
  | case4 a b cs hab ih =>
    simp only [replace2, if_neg hab] at h
    rcases List.mem_cons.mp h with h1 | h1
    · exact Or.inr (by simp [h1])
    · rcases ih h1 with h2 | h2
      · exact Or.inl h2
      · rcases List.mem_cons.mp h2 with h3 | h3
        · exact Or.inr (by simp [h3])
        · exact Or.inr (by simp [h3])

theorem mem_foldl_replace1 (l : List Nat) (s : List Nat) (c : Nat)
    (h : c ∈ l.foldl (fun acc d => replace1 d underscore acc) s) :
    c = underscore ∨ c ∈ s := by
  induction l generalizing s with
  | nil => exact Or.inr h
  | cons a as ih =>
    simp only [List.foldl_cons] at h
    rcases ih (replace1 a underscore s) h with h1 | h1
    · exact Or.inl h1
    · exact mem_replace1 c a underscore s h1

theorem not_mem_foldl_replace1 (l : List Nat) (s : List Nat) (c : Nat)
    (hne : c ≠ underscore) (hs : c ∉ s) :
    c ∉ l.foldl (fun acc d => replace1 d underscore acc) s := by
  intro h
  rcases mem_foldl_replace1 l s c h with h1 | h1
  · exact hne h1
  · exact hs h1

theorem not_mem_foldl_replace1_mem (l : List Nat) (s : List Nat) (d : Nat)
    (hd : d ∈ l) (hne : d ≠ underscore) :
    d ∉ l.foldl (fun acc e => replace1 e underscore acc) s := by
  induction l generalizing s with
  | nil => simp at hd
  | cons a as ih =>
    simp only [List.foldl_cons]
    rcases List.mem_cons.mp hd with rfl | hd2
    · exact not_mem_foldl_replace1 as (replace1 d underscore s) d hne
        (not_mem_replace1_self d underscore s hne)
    · exact ih (replace1 a underscore s) hd2

theorem truncateAndDefault_spec (l : List Nat)
    (hmem : ∀ d ∈ dangerousSingles, d ∉ l) :
    (truncateAndDefault l).length ≤ 255 ∧
    ∀ d ∈ dangerousSingles, d ∉ truncateAndDefault l := by
  unfold truncateAndDefault
  by_cases hlen : l.length > 255
  · simp only [hlen, if_true]
    by_cases hnil : l.take 255 = []
    · rw [if_pos hnil]
      exact ⟨by decide, by decide⟩
    · rw [if_neg hnil]
      exact ⟨by rw [List.length_take]; omega,
        fun d hd h => hmem d hd (List.mem_of_mem_take h)⟩
  · simp only [hlen, if_false]
    by_cases hnil : l = []
    · rw [if_pos hnil]
      exact ⟨by decide, by decide⟩
    · rw [if_neg hnil]
      exact ⟨by omega, hmem⟩

set_option maxHeartbeats 1000000 in
/-- C9 (amended): for every task title the sanitized title contains no
path separator, none of the listed shell metacharacters, no quote and
no tab, LF or CR, and is at most 255 bytes long; control characters
other than tab, LF and CR are not removed. -/
theorem claim_C9_sanitize (s : List Nat) :
    (sanitizeFilename s).length ≤ 255 ∧
    ∀ d ∈ dangerousSingles, d ∉ sanitizeFilename s := by
  have hall : ∀ d ∈ dangerousSingles, d ≠ underscore := by decide
  have hmem4 : ∀ d ∈ dangerousSingles,
      d ∉ (dangerousSingles.drop 2).foldl (fun acc e => replace1 e underscore acc)
            (replace2 46 46 underscore (replace1 92 underscore (replace1 47 underscore s))) := by
    intro d hd
    have hne := hall d hd
    rw [show dangerousSingles = 47 :: 92 :: dangerousSingles.drop 2 from rfl] at hd
    rcases List.mem_cons.mp hd with rfl | hd2
    · have h1 : (47 : Nat) ∉ replace1 47 underscore s :=
        not_mem_replace1_self 47 underscore s hne
      have h2 : (47 : Nat) ∉ replace1 92 underscore (replace1 47 underscore s) := fun h => by
        rcases mem_replace1 47 92 underscore _ h with h3 | h3
        · exact hne h3
        · exact h1 h3
      have h3 : (47 : Nat) ∉
          replace2 46 46 underscore (replace1 92 underscore (replace1 47 underscore s)) :=
        fun h => by
          rcases mem_replace2 47 46 46 underscore _ h with h4 | h4
          · exact hne h4
          · exact h2 h4
      exact not_mem_foldl_replace1 _ _ 47 hne h3
    rcases List.mem_cons.mp hd2 with rfl | hd3
    · have h2 : (92 : Nat) ∉ replace1 92 underscore (replace1 47 underscore s) :=
        not_mem_replace1_self 92 underscore _ hne
      have h3 : (92 : Nat) ∉
          replace2 46 46 underscore (replace1 92 underscore (replace1 47 underscore s)) :=
        fun h => by
          rcases mem_replace2 92 46 46 underscore _ h with h4 | h4
          · exact hne h4
          · exact h2 h4
      exact not_mem_foldl_replace1 _ _ 92 hne h3
    · exact not_mem_foldl_replace1_mem _ _ d hd3 hne
  unfold sanitizeFilename
  exact truncateAndDefault_spec _ hmem4

/-- C9 witness: a title holding a slash, a control byte and a letter
sanitizes to at most 255 bytes with the slash gone. -/
theorem claim_C9_sanitize_witness :
    (sanitizeFilename [47, 1, 97]).length ≤ 255 ∧ 47 ∉ sanitizeFilename [47, 1, 97] :=
  ⟨(claim_C9_sanitize [47, 1, 97]).1, (claim_C9_sanitize [47, 1, 97]).2 47 (by decide)⟩

/-- C9 counterexample: the control byte 0x01 survives sanitization
untouched, so the sanitized title can contain control characters other
than tab, LF and CR. -/
theorem claim_C9_counterexample :
    sanitizeFilename [1] = [1] ∧ isControlByte 1 = true ∧
    (1 : Nat) ∉ dangerousSingles := by
  decide

/-! ## Claim C5 -/

theorem getSession_set (st : TermState) (id : String) (s s0 : Session)
    (h : getSession st id = some s0) :
    getSession (setSession st id s) id = some s := by
  rcases st with ⟨l⟩
  unfold getSession setSession at *
  simp only at *
  induction l with
  | nil => simp [lookupSession] at h
  | cons p ps ih =>
    rcases p with ⟨k, v⟩
    by_cases hk : k == id
    · simp [lookupSession, updateSession, hk]
    · simp only [lookupSession, updateSession, hk, if_false] at h ⊢
      simp only [Bool.false_eq_true, if_false] at h ⊢
      exact ih h

theorem isSome_getSession_set (st : TermState) (id : String) (s : Session)
    (id2 : String) :
    (getSession (setSession st id s) id2).isSome = (getSession st id2).isSome := by
  rcases st with ⟨l⟩
  unfold getSession setSession
  simp only
  induction l with
  | nil => simp [lookupSession, updateSession]
  | cons p ps ih =>
    rcases p with ⟨k, v⟩
    by_cases hk : k == id <;> by_cases h2 : k == id2 <;>
      simp [lookupSession, updateSession, hk, h2, ih]

theorem getSession_childExit (st : TermState) (id : String) :
    getSession (childExit st id) id = none := by
  rcases st with ⟨l⟩
  unfold getSession childExit
  simp only
  induction l with
  | nil => simp [lookupSession, removeSession]
  | cons p ps ih =>
    rcases p with ⟨k, v⟩
    by_cases hk : k == id <;> simp [lookupSession, removeSession, hk, ih]

theorem historyChunks_append (ms : List TermMsg) (m : TermMsg) :
    historyChunks (ms ++ [m])
      = historyChunks ms ++ (match m with | TermMsg.history h => [h] | _ => []) := by
  unfold historyChunks
  rw [List.filterMap_append]
  cases m <;> rfl

theorem replay_invariant (sched : List Bool) (r : ReplayState) :
    historyChunks (replayRun r sched).sent ++ (replayRun r sched).hist
      = historyChunks r.sent ++ r.hist := by
  induction sched generalizing r with
  | nil => rfl
  | cons b bs ih =>
    have hstep : historyChunks (replayStep r b).sent ++ (replayStep r b).hist
        = historyChunks r.sent ++ r.hist := by
      cases b with
      | true =>
        cases hh : r.hist with
        | nil => simp [replayStep, hh]
        | cons h hs =>
          simp only [replayStep, hh, if_true]
          rw [historyChunks_append]
          simp [hh]
      | false =>
        cases hl : r.live with
        | nil => simp [replayStep, hl]
        | cons o os =>
          have hred : replayStep r false
              = { hist := r.hist, live := os, sent := r.sent ++ [TermMsg.output o] } := by
            simp [replayStep, hl]
          rw [hred]
          simp only
          rw [historyChunks_append]
          simp
    calc historyChunks (replayRun r (b :: bs)).sent ++ (replayRun r (b :: bs)).hist
        = historyChunks (replayRun (replayStep r b) bs).sent
            ++ (replayRun (replayStep r b) bs).hist := rfl
      _ = historyChunks (replayStep r b).sent ++ (replayStep r b).hist := ih (replayStep r b)
      _ = historyChunks r.sent ++ r.hist := hstep

/-- C5 (amended): closing or losing the client channel never
terminates the session's child shell (only the connection binding is
cleared and the session stays in the table); a session is removed only
by the child-exit cleanup; and across any interleaving of the
history-replay goroutine with the live forwarder, every buffered line
is delivered as a `history` message at most once and, once the replay
drains, exactly once in order — but because the replay runs
concurrently with live forwarding, live `output` frames may be
delivered before the history finishes. -/
theorem claim_C5_terminal_sessions (st : TermState) (id id2 : String) (c : Nat)
    (chunk : List Nat) (s0 : Session) (r0 : ReplayState) (sched : List Bool) :
    (getSession st id = some s0 →
      getSession (clientDisconnect st id) id = some { s0 with conn := none } ∧
      getSession (reattach st id c) id = some { s0 with conn := some c }) ∧
    ((getSession (clientDisconnect st id) id2).isSome = (getSession st id2).isSome ∧
      (getSession (reattach st id c) id2).isSome = (getSession st id2).isSome ∧
      (getSession (ptyOutput st id chunk) id2).isSome = (getSession st id2).isSome) ∧
    getSession (childExit st id) id = none ∧
    (r0.sent = [] →
      historyChunks (replayRun r0 sched).sent ++ (replayRun r0 sched).hist = r0.hist) := by
  refine ⟨fun h => ⟨?_, ?_⟩, ⟨?_, ?_, ?_⟩, getSession_childExit st id, fun hs => ?_⟩
  · unfold clientDisconnect
    rw [h]
    exact getSession_set st id _ s0 h
  · unfold reattach
    rw [h]
    exact getSession_set st id _ s0 h
  · unfold clientDisconnect
    cases h : getSession st id with
    | none => rfl
    | some s1 => exact isSome_getSession_set st id _ id2
  · unfold reattach
    cases h : getSession st id with
    | none => rfl
    | some s1 => exact isSome_getSession_set st id _ id2
  · unfold ptyOutput
    cases h : getSession st id with
    | none => rfl
    | some s1 => exact isSome_getSession_set st id _ id2
  · have := replay_invariant sched r0
    rw [hs] at this
    simpa [historyChunks] using this

/-- C5 witness: disconnecting the sample session keeps the child and
buffer; a drained replay delivers the single buffered line exactly
once as history. -/
theorem claim_C5_terminal_sessions_witness :
    getSession (clientDisconnect term0 "s1") "s1"
      = some { childPid := 100, conn := none, buffer := [[104]] } ∧
    historyChunks (replayRun { hist := [[104]], live := [], sent := [] } [true]).sent
        ++ (replayRun { hist := [[104]], live := [], sent := [] } [true]).hist
      = [[104]] := by
  have h := claim_C5_terminal_sessions term0 "s1" "s1" 5 []
    { childPid := 100, conn := some 5, buffer := [[104]] }
    { hist := [[104]], live := [], sent := [] } [true]
  exact ⟨(h.1 (by rfl)).1, h.2.2.2 rfl⟩

/-- C5 counterexample: with one buffered line and one pending live
chunk, the schedule that runs the live forwarder first delivers an
`output` frame before the buffered `history` frame, so a re-attaching
client does not always receive the full history before live output. -/
theorem claim_C5_counterexample :
    (replayRun { hist := [[104]], live := [[108]], sent := [] } [false, true]).sent
      = [TermMsg.output [108], TermMsg.history [104]] ∧
    ({ hist := [[104]], live := [[108]], sent := [] } : ReplayState).hist ≠ [] := by
  exact ⟨rfl, by decide⟩

end TaskWrapper
